import Mathlib

/-!
Verification development for the ClipBox clipboard-history engine.

The definitions below are a shallow embedding of the TypeScript sources
(`src/main.ts` and the two unnamed revisions; the richest revision, the one
with favorites and the shortcut manager, is the reference for `getFilteredItems`
and the shortcut operations; `addToHistory` and `moveItemToTop` are identical
across revisions).

Modelling conventions:
* JS strings are Lean `String`s; the JS operations used by the code
  (`trim`, `startsWith`, `includes`, `substring(0, n)`, first-occurrence
  `replace`) are re-implemented structurally over `List Char` so that every
  definition evaluates inside the kernel.  JS `trim`'s whitespace set is
  modelled by `Char.isWhitespace`.
* `Date.now()` is modelled by an explicit `now : Nat` parameter (milliseconds);
  `Date.now().toString()` is `Nat.repr now`.
* The store `this.clipboardHistory` is a `List ClipboardItem`, front = index 0.
* JS `Array.prototype.sort` with comparator `(a, b) => b.timestamp - a.timestamp`
  is a stable sort placing larger timestamps first; it is modelled by the
  stable insertion sort `sortTimestampDesc`.
-/

namespace ClipBox

/-- JS `String.prototype.trim`: drop whitespace from both ends. -/
def jsTrim (s : String) : String :=
  ⟨((s.data.dropWhile Char.isWhitespace).reverse.dropWhile Char.isWhitespace).reverse⟩

/-- JS `String.prototype.startsWith`. -/
def strStartsWith (s pat : String) : Bool :=
  pat.data.isPrefixOf s.data

/-- Does `pat` occur as a contiguous subsequence of `s`? -/
def listContainsSeq (pat : List Char) : List Char → Bool
  | [] => pat.isEmpty
  | c :: cs => pat.isPrefixOf (c :: cs) || listContainsSeq pat cs

/-- JS `String.prototype.includes`. -/
def strIncludes (s pat : String) : Bool :=
  listContainsSeq pat.data s.data

/-- JS `content.substring(0, n)` (modelled per character). -/
def strTake (s : String) (n : Nat) : String :=
  ⟨s.data.take n⟩

/-- JS `String.prototype.replace` with a string pattern: replace the first
occurrence only. -/
def replaceFirstList (pat rep : List Char) : List Char → List Char
  | [] => []
  | c :: cs =>
    if pat.isPrefixOf (c :: cs) then rep ++ (c :: cs).drop pat.length
    else c :: replaceFirstList pat rep cs

/-- JS `s.replace(pat, rep)` (first occurrence only). -/
def replaceFirst (s pat rep : String) : String :=
  ⟨replaceFirstList pat.data rep.data s.data⟩

/-- `item_type: 'text' | 'image'`. -/
inductive ItemType where
  | text
  | image
deriving DecidableEq, Repr

/-- The `ClipboardItem` interface of the sources. -/
structure ClipboardItem where
  id : String
  content : String
  timestamp : Nat
  item_type : ItemType
  image_path : Option String
  is_favorite : Bool
deriving DecidableEq, Repr

/-- `private maxHistorySize = 100`. -/
def maxHistorySize : Nat := 100

/-- `isBase64Image`: `content.startsWith('data:image/') && content.includes('base64,')`. -/
def isBase64Image (content : String) : Bool :=
  strStartsWith content "data:image/" && strIncludes content "base64,"

/-- The body of the duplicate-check loop in `addToHistory`: does the incoming
`content` count as a duplicate of the stored `item`?  Both-image payloads
compare only their first 200 characters, everything else compares the stored
content against the raw incoming content. -/
def dupMatch (content : String) (item : ClipboardItem) : Bool :=
  if isBase64Image content && isBase64Image item.content then
    strTake content 200 == strTake item.content 200
  else
    item.content == content

/-- The `newItem` object literal built inside `addToHistory`:
`id: Date.now().toString()`, `content: content.trim()`, `timestamp: Date.now()`,
`item_type` derived from `isBase64Image`, `image_path` the raw (untrimmed)
content for images, `is_favorite: false`. -/
def newClipboardItem (now : Nat) (content : String) : ClipboardItem :=
  let isImage := isBase64Image content
  { id := Nat.repr now
    content := jsTrim content
    timestamp := now
    item_type := if isImage then .image else .text
    image_path := if isImage then some content else none
    is_favorite := false }

/-- `addToHistory(content)`.  Returns the new store and the entry that was
inserted (`none` on rejection; the TS method returns `void`, acceptance there
is the `unshift`).  `now` stands for `Date.now()`. -/
def addToHistory (now : Nat) (content : String) (h : List ClipboardItem) :
    List ClipboardItem × Option ClipboardItem :=
  if jsTrim content == "" then (h, none)
  else if h.any (dupMatch content) then (h, none)
  else
    let newItem := newClipboardItem now content
    let h' := newItem :: h
    (if h'.length > maxHistorySize then h'.take maxHistorySize else h', some newItem)

/-- Ingest a whole stream of `(Date.now(), content)` capture events. -/
def ingestAll (inputs : List (Nat × String)) (h : List ClipboardItem) :
    List ClipboardItem :=
  inputs.foldl (fun acc p => (addToHistory p.1 p.2 acc).1) h

/-- `moveItemToTop(id)`: guard on the empty id, `findIndex`, and when the index
is positive `splice` the item out and `unshift` it. -/
def moveItemToTop (id : String) (h : List ClipboardItem) : List ClipboardItem :=
  if id == "" then h
  else
    match h.findIdx? (fun item => item.id == id) with
    | none => h
    | some index =>
      if 0 < index then
        match h[index]? with
        | some item => item :: h.eraseIdx index
        | none => h
      else h

/-- Stable insertion of `x` into a timestamp-descending list: `x` goes in
front of the first element whose timestamp is not larger, so an element
inserted later (i.e. earlier in the original array) precedes ties. -/
def insertTsDesc (x : ClipboardItem) : List ClipboardItem → List ClipboardItem
  | [] => [x]
  | y :: ys =>
    if x.timestamp < y.timestamp then y :: insertTsDesc x ys
    else x :: y :: ys

/-- The JS stable sort `arr.sort((a, b) => b.timestamp - a.timestamp)`. -/
def sortTimestampDesc : List ClipboardItem → List ClipboardItem
  | [] => []
  | x :: xs => insertTsDesc x (sortTimestampDesc xs)

/-- `currentFilter: 'all' | 'favorites'`. -/
inductive Filter where
  | all
  | favorites
deriving DecidableEq, Repr

/-- `getFilteredItems()` of the favorites-capable revision: the favorites view
filters on `is_favorite` and sorts by timestamp descending; the all view sorts
the whole store by timestamp descending. -/
def getFilteredItems (filter : Filter) (h : List ClipboardItem) :
    List ClipboardItem :=
  match filter with
  | .favorites => sortTimestampDesc (h.filter (fun item => item.is_favorite))
  | .all => sortTimestampDesc h

/-! ### Hotkey binding manager (`saveShortcutKey` / `registerGlobalShortcut`)

The OS-level `register`/`unregister` calls are external collaborators; the
outcome of the `register` call is the oracle parameter `regOk`.  The
`Option String` component of each result is the failure value the caller
observes (the TS methods return `Promise<void>` and catch internally, so it is
always `none`). -/

/-- Process-wide shortcut-binding state: `this.shortcutKey`, the set of keys
currently registered with the OS, and the persisted `localStorage`
slot `clipboxShortcut`. -/
structure ShortcutState where
  shortcutKey : String
  osRegistered : List String
  storedSlot : Option String
deriving DecidableEq, Repr

/-- Effect of the plugin `unregister(key)` call on the OS registration set. -/
def osUnregister (key : String) (regs : List String) : List String :=
  regs.filter (fun k => k != key)

/-- `registerGlobalShortcut(key)`: best-effort pre-unregister of the same key
(errors ignored), then the OS `register` call.  A failed registration is
caught and logged inside the method, so the caller observes no failure value
in either branch. -/
def registerGlobalShortcut (key : String) (regOk : Bool) (st : ShortcutState) :
    ShortcutState × Option String :=
  let st1 := { st with osRegistered := osUnregister key st.osRegistered }
  if regOk then ({ st1 with osRegistered := key :: st1.osRegistered }, none)
  else (st1, none)

/-- `saveShortcutKey(key)` — the rebind operation: when a different old key is
bound, unregister it (best-effort) and wait; fix `Meta` to `Cmd`; persist the
slot; register the new key; update `this.shortcutKey`.  The inner catch of
`registerGlobalShortcut` already swallowed any registration failure, so the
final assignment is always reached. -/
def saveShortcutKey (key : String) (regOk : Bool) (st : ShortcutState) :
    ShortcutState × Option String :=
  let st1 :=
    if st.shortcutKey != "" && st.shortcutKey != key then
      { st with osRegistered := osUnregister st.shortcutKey st.osRegistered }
    else st
  let fixedKey := replaceFirst key "Meta" "Cmd"
  let st2 := { st1 with storedSlot := some fixedKey }
  let r := registerGlobalShortcut fixedKey regOk st2
  ({ r.1 with shortcutKey := fixedKey }, r.2)

/-! ### Concrete fixtures for the scenarios below -/

/-- E2 of the spec scenario: the older entry, favorited. -/
def entryOld : ClipboardItem :=
  { id := "1", content := "e2", timestamp := 1, item_type := .text
    image_path := none, is_favorite := true }

/-- E1 of the spec scenario: the newer entry, at the front of the store. -/
def entryNew : ClipboardItem :=
  { id := "2", content := "e1", timestamp := 2, item_type := .text
    image_path := none, is_favorite := false }

/-- A stored text entry whose content is the trimmed form `"hi"`. -/
def entryHello : ClipboardItem :=
  { id := "9", content := "hi", timestamp := 9, item_type := .text
    image_path := none, is_favorite := false }

/-- An entry carrying the empty-string id. -/
def entryNoId : ClipboardItem :=
  { id := "", content := "x", timestamp := 3, item_type := .text
    image_path := none, is_favorite := false }

/-- An image payload with a trailing space (untrimmed). -/
def imgContent : String := "data:image/png;base64,AA "

/-- A state bound to the default key, registered with the OS, slot persisted. -/
def boundState : ShortcutState :=
  { shortcutKey := "Ctrl+Alt+v", osRegistered := ["Ctrl+Alt+v"]
    storedSlot := some "Ctrl+Alt+v" }

/-! ## Helper development: decimal rendering is injective

`Date.now().toString()` is `Nat.repr`; the round-trip below shows distinct
milliseconds yield distinct id strings. -/

/-- Numeric value of a decimal digit character. -/
def decDigit (c : Char) : Nat := c.toNat - 48

/-- Decimal value of a digit string, most significant digit first. -/
def decValFrom : List Char → Nat → Nat
  | [], acc => acc
  | c :: cs, acc => decValFrom cs (acc * 10 + decDigit c)

theorem decValFrom_append (l1 l2 : List Char) (acc : Nat) :
    decValFrom (l1 ++ l2) acc = decValFrom l2 (decValFrom l1 acc) := by
  induction l1 generalizing acc with
  | nil => rfl
  | cons c cs ih => simp only [List.cons_append, decValFrom]; exact ih _

theorem toDigitsCore_append (fuel n : Nat) (ds : List Char) :
    Nat.toDigitsCore 10 fuel n ds = Nat.toDigitsCore 10 fuel n [] ++ ds := by
  induction fuel generalizing n ds with
  | zero => simp [Nat.toDigitsCore]
  | succ f ih =>
    simp only [Nat.toDigitsCore]
    by_cases h : n / 10 = 0
    · simp [h]
    · simp only [h, ite_false]
      rw [ih (n / 10) ([Nat.digitChar (n % 10)])]
      rw [ih (n / 10) (Nat.digitChar (n % 10) :: ds)]
      simp

theorem toDigitsCore_fuel (f1 : Nat) : ∀ (f2 n : Nat), n < f1 → n < f2 →
    Nat.toDigitsCore 10 f1 n [] = Nat.toDigitsCore 10 f2 n [] := by
  induction f1 with
  | zero => omega
  | succ f ih =>
    intro f2 n h1 h2
    match f2, h2 with
    | g + 1, h2 =>
      simp only [Nat.toDigitsCore]
      by_cases h : n / 10 = 0
      · simp [h]
      · have hn : 0 < n := by
          rcases Nat.eq_zero_or_pos n with h0 | h0
          · subst h0; simp at h
          · exact h0
        have hdiv : n / 10 < n := Nat.div_lt_self hn (by norm_num)
        simp only [h, ite_false]
        rw [toDigitsCore_append f (n / 10), toDigitsCore_append g (n / 10)]
        rw [ih g (n / 10) (by omega) (by omega)]

theorem decDigit_digitChar (k : Nat) (hk : k < 10) : decDigit (Nat.digitChar k) = k := by
  interval_cases k <;> rfl

theorem decValFrom_toDigits (n : Nat) : decValFrom (Nat.toDigits 10 n) 0 = n := by
  induction n using Nat.strong_induction_on with
  | _ n ih =>
    unfold Nat.toDigits
    by_cases h : n / 10 = 0
    · have hn : n < 10 := by omega
      simp only [Nat.toDigitsCore, h, ite_true]
      simp only [decValFrom, Nat.zero_mul, Nat.zero_add]
      rw [Nat.mod_eq_of_lt hn]
      exact decDigit_digitChar n hn
    · have hn : 0 < n := by
        rcases Nat.eq_zero_or_pos n with h0 | h0
        · subst h0; simp at h
        · exact h0
      have hdiv : n / 10 < n := Nat.div_lt_self hn (by norm_num)
      simp only [Nat.toDigitsCore, h, ite_false]
      rw [toDigitsCore_append n (n / 10)]
      rw [toDigitsCore_fuel n (n / 10 + 1) (n / 10) (by omega) (by omega)]
      rw [show Nat.toDigitsCore 10 (n / 10 + 1) (n / 10) [] = Nat.toDigits 10 (n / 10) from rfl]
      rw [decValFrom_append]
      rw [ih (n / 10) hdiv]
      simp only [decValFrom]
      rw [decDigit_digitChar (n % 10) (Nat.mod_lt n (by norm_num))]
      omega

theorem natRepr_inj {n m : Nat} (h : Nat.repr n = Nat.repr m) : n = m := by
  have hd : Nat.toDigits 10 n = Nat.toDigits 10 m := by
    have h2 := congrArg String.data h
    simpa [Nat.repr, List.asString] using h2
  have h3 := congrArg (fun l => decValFrom l 0) hd
  simpa [decValFrom_toDigits] using h3

/-! ## Helper development: the stable timestamp-descending sort -/

theorem insertTsDesc_perm (x : ClipboardItem) (l : List ClipboardItem) :
    List.Perm (insertTsDesc x l) (x :: l) := by
  induction l with
  | nil => exact List.Perm.refl _
  | cons y ys ih =>
    unfold insertTsDesc
    by_cases h : x.timestamp < y.timestamp
    · rw [if_pos h]
      exact (ih.cons y).trans (List.Perm.swap x y ys)
    · rw [if_neg h]

theorem sortTimestampDesc_perm (l : List ClipboardItem) :
    List.Perm (sortTimestampDesc l) l := by
  induction l with
  | nil => exact List.Perm.refl _
  | cons x xs ih =>
    unfold sortTimestampDesc
    exact (insertTsDesc_perm x (sortTimestampDesc xs)).trans (ih.cons x)

theorem insertTsDesc_pairwise {x : ClipboardItem} {l : List ClipboardItem}
    (hl : l.Pairwise (fun a b => b.timestamp ≤ a.timestamp)) :
    (insertTsDesc x l).Pairwise (fun a b => b.timestamp ≤ a.timestamp) := by
  induction l with
  | nil => simp [insertTsDesc]
  | cons y ys ih =>
    rcases List.pairwise_cons.mp hl with ⟨hy, hys⟩
    unfold insertTsDesc
    by_cases h : x.timestamp < y.timestamp
    · rw [if_pos h]
      refine List.pairwise_cons.mpr ⟨?_, ih hys⟩
      intro z hz
      rcases List.mem_cons.mp ((insertTsDesc_perm x ys).mem_iff.mp hz) with hzx | hzys
      · exact hzx ▸ Nat.le_of_lt h
      · exact hy z hzys
    · rw [if_neg h]
      refine List.pairwise_cons.mpr ⟨?_, hl⟩
      intro z hz
      rcases List.mem_cons.mp hz with hzy | hzys
      · exact hzy ▸ Nat.le_of_not_lt h
      · exact Nat.le_trans (hy z hzys) (Nat.le_of_not_lt h)

theorem sortTimestampDesc_pairwise (l : List ClipboardItem) :
    (sortTimestampDesc l).Pairwise (fun a b => b.timestamp ≤ a.timestamp) := by
  induction l with
  | nil => simp [sortTimestampDesc]
  | cons x xs ih => exact insertTsDesc_pairwise ih

theorem sortTimestampDesc_of_sorted {l : List ClipboardItem}
    (hl : l.Pairwise (fun a b => b.timestamp ≤ a.timestamp)) :
    sortTimestampDesc l = l := by
  induction l with
  | nil => rfl
  | cons a l ih =>
    rcases List.pairwise_cons.mp hl with ⟨ha, hl'⟩
    unfold sortTimestampDesc
    rw [ih hl']
    cases l with
    | nil => rfl
    | cons b ys =>
      unfold insertTsDesc
      rw [if_neg (Nat.not_lt.mpr (ha b (List.mem_cons_self b ys)))]

/-! ## Helper development: `addToHistory` case analysis -/

theorem dupMatch_of_content_eq {x : String} {e : ClipboardItem}
    (h : e.content = x) : dupMatch x e = true := by
  unfold dupMatch
  by_cases hb : (isBase64Image x && isBase64Image e.content) = true
  · rw [if_pos hb, h]; exact beq_self_eq_true _
  · rw [if_neg hb, h]; exact beq_self_eq_true _

theorem addToHistory_rejects_iff (now : Nat) (x : String) (h : List ClipboardItem) :
    (addToHistory now x h).2 = none ↔
      (jsTrim x = "" ∨ ∃ e ∈ h, dupMatch x e = true) := by
  unfold addToHistory
  by_cases h1 : (jsTrim x == "") = true
  · simp only [h1, if_true]
    simp [beq_iff_eq.mp h1]
  · by_cases h2 : h.any (dupMatch x) = true
    · simp only [h1, if_false, Bool.false_eq_true]
      simp [h2, List.any_eq_true.mp h2]
    · simp only [h1, h2, Bool.false_eq_true, if_false]
      constructor
      · intro hc; exact absurd hc (by simp)
      · intro hc
        rcases hc with hc | hc
        · exact absurd (beq_iff_eq.mpr hc) h1
        · exact absurd (List.any_eq_true.mpr hc) h2

theorem addToHistory_reject_hist (now : Nat) (x : String) (h : List ClipboardItem)
    (hrej : (addToHistory now x h).2 = none) : (addToHistory now x h).1 = h := by
  unfold addToHistory at hrej ⊢
  by_cases h1 : (jsTrim x == "") = true
  · simp [h1]
  · by_cases h2 : h.any (dupMatch x) = true
    · simp [h1, h2]
    · simp [h1, h2] at hrej

theorem addToHistory_accept (now : Nat) (x : String) (h : List ClipboardItem)
    (e : ClipboardItem) (hacc : (addToHistory now x h).2 = some e) :
    e = newClipboardItem now x ∧
      (addToHistory now x h).1 = (newClipboardItem now x :: h).take maxHistorySize := by
  unfold addToHistory at hacc ⊢
  by_cases h1 : (jsTrim x == "") = true
  · simp [h1] at hacc
  · by_cases h2 : h.any (dupMatch x) = true
    · simp [h1, h2] at hacc
    · simp only [if_neg h1, if_neg h2] at hacc ⊢
      refine ⟨(Option.some.inj hacc).symm, ?_⟩
      by_cases h3 : (newClipboardItem now x :: h).length > maxHistorySize
      · simp [h3]
      · simp [h3, List.take_of_length_le (Nat.le_of_not_lt h3)]

theorem addToHistory_length_le {now : Nat} {x : String} {h : List ClipboardItem}
    (hh : h.length ≤ maxHistorySize) :
    (addToHistory now x h).1.length ≤ maxHistorySize := by
  rcases hopt : (addToHistory now x h).2 with _ | e
  · rw [addToHistory_reject_hist _ _ _ hopt]; exact hh
  · rw [(addToHistory_accept _ _ _ _ hopt).2]
    rw [List.length_take]
    exact Nat.min_le_left _ _

/-! ## Claim theorems -/

/-- C1 (corrected): `view(All)` does not return the stored order; after
`store = [E1, E2]` and `promoteToFront(E2.id)` the store is `[E2, E1]` but the
All view re-sorts by timestamp and shows `[E1, E2]`. -/
theorem viewAll_not_store_order :
    moveItemToTop "1" [entryNew, entryOld] = [entryOld, entryNew] ∧
    getFilteredItems Filter.all [entryOld, entryNew] ≠ [entryOld, entryNew] := by
  decide

/-- C1 (amended): `view(All)` returns the whole store re-sorted stably by
`timestamp` descending (a permutation of the store); it equals the stored
sequence exactly when the stored sequence is already timestamp-descending,
which promotion can invalidate. -/
theorem viewAll_eq_sort_timestamp (h : List ClipboardItem) :
    getFilteredItems Filter.all h = sortTimestampDesc h ∧
    List.Perm (getFilteredItems Filter.all h) h ∧
    ((getFilteredItems Filter.all h).Pairwise
      (fun a b => b.timestamp ≤ a.timestamp)) ∧
    (h.Pairwise (fun a b => b.timestamp ≤ a.timestamp) →
      getFilteredItems Filter.all h = h) := by
  refine ⟨rfl, sortTimestampDesc_perm h, sortTimestampDesc_pairwise h, ?_⟩
  intro hs
  exact sortTimestampDesc_of_sorted hs

/-- Witness for C1's amended theorem at a concrete timestamp-sorted store. -/
theorem viewAll_eq_sort_timestamp_witness :
    getFilteredItems Filter.all [entryNew, entryOld] = [entryNew, entryOld] :=
  (viewAll_eq_sort_timestamp [entryNew, entryOld]).2.2.2 (by decide)

/-- C2 (confirmed): starting from any store within the bound, any sequence of
ingest calls keeps the store length at most `maxHistorySize`; an accepted
insertion truncates to the first `maxHistorySize` entries, dropping the tail. -/
theorem ingestAll_length_le (inputs : List (Nat × String))
    (h : List ClipboardItem) (hlen : h.length ≤ maxHistorySize) :
    (ingestAll inputs h).length ≤ maxHistorySize ∧
    (∀ (now : Nat) (c : String) (g : List ClipboardItem) (e : ClipboardItem),
      (addToHistory now c g).2 = some e →
      (addToHistory now c g).1 = (e :: g).take maxHistorySize) := by
  constructor
  · induction inputs generalizing h with
    | nil => exact hlen
    | cons p ps ih =>
      rw [ingestAll, List.foldl_cons]
      exact ih _ (addToHistory_length_le hlen)
  · intro now c g e hacc
    rcases addToHistory_accept now c g e hacc with ⟨he, hfst⟩
    rw [hfst, he]

/-- Witness for C2 at a concrete ingest stream from the empty store. -/
theorem ingestAll_length_le_witness :
    (ingestAll [(1, "a"), (2, "b"), (3, "a")] []).length ≤ maxHistorySize :=
  (ingestAll_length_le [(1, "a"), (2, "b"), (3, "a")] [] (by decide)).1

/-- C8 (confirmed): `addToHistory` is a total function; it rejects exactly on
whitespace-only content or a duplicate match, and a rejection leaves the store
exactly unchanged. -/
theorem ingest_rejection_atomic (now : Nat) (content : String)
    (h : List ClipboardItem) :
    ((addToHistory now content h).2 = none ↔
      (jsTrim content = "" ∨ ∃ e ∈ h, dupMatch content e = true)) ∧
    ((addToHistory now content h).2 = none →
      (addToHistory now content h).1 = h) :=
  ⟨addToHistory_rejects_iff now content h,
   addToHistory_reject_hist now content h⟩

/-- Witness for C8: rejecting a whitespace-only capture leaves the store
untouched. -/
theorem ingest_rejection_atomic_witness :
    (addToHistory 0 " " [entryHello]).1 = [entryHello] :=
  (ingest_rejection_atomic 0 " " [entryHello]).2
    ((ingest_rejection_atomic 0 " " [entryHello]).1.mpr (Or.inl (by decide)))

/-- C3 (corrected, counterexample): the store holds a text entry whose content
`"hi"` equals `trim(" hi")`, yet ingesting `" hi"` is accepted and inserted —
the duplicate comparison uses the raw candidate, not its trimmed form. -/
theorem dedup_not_after_trimming :
    jsTrim " hi" = entryHello.content ∧
    (addToHistory 10 " hi" [entryHello]).2 ≠ none ∧
    (addToHistory 10 " hi" [entryHello]).1.length = 2 := by
  decide

/-- C3 (amended): text duplicate detection is exact string equality of the raw
candidate against the stored (trimmed-at-insertion) content: a non-image
candidate is rejected iff it is whitespace-only or some stored entry's content
equals the raw candidate itself. -/
theorem dedup_raw_equality (now : Nat) (x : String) (h : List ClipboardItem)
    (hx : isBase64Image x = false) :
    ((addToHistory now x h).2 = none ↔
      (jsTrim x = "" ∨ ∃ e ∈ h, e.content = x)) := by
  rw [addToHistory_rejects_iff]
  constructor
  · rintro (hc | ⟨e, he, hd⟩)
    · exact Or.inl hc
    · refine Or.inr ⟨e, he, ?_⟩
      unfold dupMatch at hd
      rw [hx] at hd
      simpa using hd
  · rintro (hc | ⟨e, he, hd⟩)
    · exact Or.inl hc
    · exact Or.inr ⟨e, he, dupMatch_of_content_eq hd⟩

/-- Witness for C3's amended theorem: a candidate equal (raw) to a stored
content is rejected. -/
theorem dedup_raw_equality_witness :
    (addToHistory 11 "hi" [entryHello]).2 = none :=
  (dedup_raw_equality 11 "hi" [entryHello] (by decide)).mpr
    (Or.inr ⟨entryHello, by decide, rfl⟩)

/-- C4 (corrected, counterexample): ingesting `" hi"` twice from the empty
store yields two stored entries whose content is `trim(" hi")`, because the
second ingest compares the raw `" hi"` against the stored trimmed `"hi"`. -/
theorem ingest_not_idempotent_untrimmed :
    ((addToHistory 2 " hi" (addToHistory 1 " hi" []).1).1.countP
      (fun e => e.content == jsTrim " hi")) = 2 := by
  decide

/-- C4 (amended): for a candidate equal to its own trim, an immediately
repeated ingest is a no-op on the store, and when the (text) candidate is new
and non-empty, exactly one stored entry for it results. -/
theorem ingest_idempotent_trimmed (x : String) (now1 now2 : Nat)
    (h : List ClipboardItem) (hx : jsTrim x = x) :
    (addToHistory now2 x (addToHistory now1 x h).1).1 =
      (addToHistory now1 x h).1 ∧
    (isBase64Image x = false → x ≠ "" → (∀ e ∈ h, e.content ≠ x) →
      ((addToHistory now2 x (addToHistory now1 x h).1).1.countP
        (fun e => e.content == x)) = 1) := by
  have hsame : (addToHistory now2 x (addToHistory now1 x h).1).1 =
      (addToHistory now1 x h).1 := by
    rcases hopt : (addToHistory now1 x h).2 with _ | e
    · rw [addToHistory_reject_hist _ _ _ hopt]
      exact addToHistory_reject_hist _ _ _
        ((addToHistory_rejects_iff now2 x h).mpr
          ((addToHistory_rejects_iff now1 x h).mp hopt))
    · rcases addToHistory_accept _ _ _ _ hopt with ⟨_, hfst⟩
      rw [hfst]
      apply addToHistory_reject_hist
      apply (addToHistory_rejects_iff _ _ _).mpr
      refine Or.inr ⟨newClipboardItem now1 x, ?_, ?_⟩
      · rw [show maxHistorySize = 99 + 1 from rfl, List.take_succ_cons]
        exact List.mem_cons_self _ _
      · exact dupMatch_of_content_eq (by simp [newClipboardItem, hx])
  refine ⟨hsame, ?_⟩
  intro himg hne hno
  rw [hsame]
  rcases hopt : (addToHistory now1 x h).2 with _ | e
  · exfalso
    rcases (addToHistory_rejects_iff now1 x h).mp hopt with hc | ⟨e, he, hd⟩
    · exact hne (by rw [← hx]; exact hc)
    · unfold dupMatch at hd
      rw [himg] at hd
      simp only [Bool.false_and, Bool.false_eq_true, if_false] at hd
      exact hno e he (beq_iff_eq.mp hd)
  · rcases addToHistory_accept _ _ _ _ hopt with ⟨_, hfst⟩
    rw [hfst, show maxHistorySize = 99 + 1 from rfl, List.take_succ_cons]
    rw [List.countP_cons]
    have hzero : (List.take 99 h).countP (fun e => e.content == x) = 0 :=
      List.countP_eq_zero.mpr (fun a ha => by
        simpa using hno a (List.take_subset _ _ ha))
    simp [hzero, newClipboardItem, hx]

/-- Witness for C4's amended theorem at the trimmed candidate `"hi"`. -/
theorem ingest_idempotent_trimmed_witness :
    ((addToHistory 2 "hi" (addToHistory 1 "hi" []).1).1.countP
      (fun e => e.content == "hi")) = 1 :=
  (ingest_idempotent_trimmed "hi" 1 2 [] (by decide)).2 (by decide) (by decide)
    (by simp)

/-- C10 (confirmed): an accepted ingest stores the trimmed content, and an
image entry's `image_path` holds the original untrimmed capture. -/
theorem ingest_stores_trimmed (now : Nat) (x : String) (h : List ClipboardItem)
    (e : ClipboardItem) (hacc : (addToHistory now x h).2 = some e) :
    e.content = jsTrim x ∧
    (isBase64Image x = true →
      e.image_path = some x ∧ e.item_type = ItemType.image) ∧
    (isBase64Image x = false →
      e.image_path = none ∧ e.item_type = ItemType.text) := by
  rcases addToHistory_accept now x h e hacc with ⟨he, _⟩
  subst he
  refine ⟨rfl, ?_, ?_⟩ <;> intro hi <;> simp [newClipboardItem, hi]

/-- Witness for C10 at an untrimmed image capture. -/
theorem ingest_stores_trimmed_witness :
    (newClipboardItem 7 imgContent).content = jsTrim imgContent ∧
    (isBase64Image imgContent = true →
      (newClipboardItem 7 imgContent).image_path = some imgContent ∧
      (newClipboardItem 7 imgContent).item_type = ItemType.image) ∧
    (isBase64Image imgContent = false →
      (newClipboardItem 7 imgContent).image_path = none ∧
      (newClipboardItem 7 imgContent).item_type = ItemType.text) :=
  ingest_stores_trimmed 7 imgContent [] _ (by decide)

/-- C5 (corrected, counterexample): two acceptances at the same millisecond
(`Date.now() = 5`) produce two distinct stored entries sharing the id `"5"`. -/
theorem ids_collide_same_millisecond :
    ((addToHistory 5 "b" (addToHistory 5 "a" []).1).1.map (fun e => e.id)) =
      ["5", "5"] ∧
    (addToHistory 5 "b" (addToHistory 5 "a" []).1).1.Pairwise
      (fun a b => a ≠ b) := by
  decide

/-- C5 (amended): ids are the decimal rendering of the acceptance millisecond,
so entries accepted at distinct milliseconds have distinct ids; only
same-millisecond acceptances collide. -/
theorem ids_distinct_across_milliseconds (now1 now2 : Nat) (x1 x2 : String)
    (h1 h2 : List ClipboardItem) (e1 e2 : ClipboardItem) (hne : now1 ≠ now2)
    (ha : (addToHistory now1 x1 h1).2 = some e1)
    (hb : (addToHistory now2 x2 h2).2 = some e2) :
    e1.id ≠ e2.id := by
  rcases addToHistory_accept _ _ _ _ ha with ⟨he1, _⟩
  rcases addToHistory_accept _ _ _ _ hb with ⟨he2, _⟩
  subst he1
  subst he2
  intro hid
  exact hne (natRepr_inj (by simpa [newClipboardItem] using hid))

/-- Witness for C5's amended theorem at milliseconds 1 and 2. -/
theorem ids_distinct_across_milliseconds_witness :
    (newClipboardItem 1 "a").id ≠ (newClipboardItem 2 "a").id :=
  ids_distinct_across_milliseconds 1 2 "a" "a" [] [] _ _ (by decide)
    (by decide) (by decide)

/-- C6 (confirmed): the favorites view is exactly the favorited entries of the
store, stably sorted by `timestamp` (`createdAt`) descending; when the
favorited entries carry pairwise-distinct timestamps the order is strictly
descending, regardless of storage/promotion order. -/
theorem favoritesView_sorted (h : List ClipboardItem) :
    List.Perm (getFilteredItems Filter.favorites h)
      (h.filter (fun e => e.is_favorite)) ∧
    (∀ e ∈ getFilteredItems Filter.favorites h, e.is_favorite = true) ∧
    ((getFilteredItems Filter.favorites h).Pairwise
      (fun a b => b.timestamp ≤ a.timestamp)) ∧
    ((h.filter (fun e => e.is_favorite)).Pairwise
        (fun a b => a.timestamp ≠ b.timestamp) →
      (getFilteredItems Filter.favorites h).Pairwise
        (fun a b => b.timestamp < a.timestamp)) := by
  have hperm := sortTimestampDesc_perm (h.filter (fun e => e.is_favorite))
  refine ⟨hperm, ?_, sortTimestampDesc_pairwise _, ?_⟩
  · intro e he
    exact (List.mem_filter.mp (hperm.mem_iff.mp he)).2
  · intro hdist
    have hne : (getFilteredItems Filter.favorites h).Pairwise
        (fun a b => a.timestamp ≠ b.timestamp) :=
      (hperm.pairwise_iff (fun hab => Ne.symm hab)).mpr hdist
    have hand := (sortTimestampDesc_pairwise
      (h.filter (fun e => e.is_favorite))).and hne
    exact hand.imp (fun hab => Nat.lt_of_le_of_ne hab.1 (Ne.symm hab.2))

/-- Witness for C6 at a store whose favorites have distinct timestamps. -/
theorem favoritesView_sorted_witness :
    (getFilteredItems Filter.favorites [entryOld, entryNew]).Pairwise
      (fun a b => b.timestamp < a.timestamp) :=
  (favoritesView_sorted [entryOld, entryNew]).2.2.2 (by decide)

/-- C7 (corrected, counterexample): an entry with the empty-string id sits at
position 1, yet `moveItemToTop("")` is a guarded no-op and does not move it to
the front. -/
theorem promote_empty_id_noop :
    entryNoId.id = "" ∧
    moveItemToTop "" [entryHello, entryNoId] = [entryHello, entryNoId] ∧
    moveItemToTop "" [entryHello, entryNoId] ≠ [entryNoId, entryHello] := by
  decide

theorem findIdx?_append_first (p : ClipboardItem → Bool)
    (pre post : List ClipboardItem) (item : ClipboardItem)
    (hitem : p item = true) (hpre : ∀ x ∈ pre, p x = false) :
    (pre ++ item :: post).findIdx? p = some pre.length := by
  induction pre with
  | nil => simp [hitem]
  | cons a as ih =>
    have ha : p a = false := hpre a (List.mem_cons_self a as)
    have ih2 := ih (fun x hx => hpre x (List.mem_cons_of_mem a hx))
    simp [List.findIdx?_cons, ha, List.findIdx?_start_succ, ih2]

theorem getElem?_append_mid (pre post : List ClipboardItem)
    (item : ClipboardItem) : (pre ++ item :: post)[pre.length]? = some item := by
  rw [List.getElem?_append_right (Nat.le_refl _)]
  simp

theorem eraseIdx_append_mid (pre post : List ClipboardItem)
    (item : ClipboardItem) :
    (pre ++ item :: post).eraseIdx pre.length = pre ++ post := by
  induction pre with
  | nil => simp
  | cons a as ih => simp [ih]

/-- C7 (amended): for every nonempty id, `promoteToFront` moves the first
entry carrying the id to position 0 and keeps all other entries in their
relative order; an absent id or an id already at the front is a no-op; the
result's entries are the store's own records, so no `createdAt` changes. -/
theorem moveItemToTop_spec (id : String) (h : List ClipboardItem)
    (hid : id ≠ "") :
    (∀ pre item post, h = pre ++ item :: post → item.id = id →
      (∀ x ∈ pre, x.id ≠ id) → pre ≠ [] →
      moveItemToTop id h = item :: (pre ++ post)) ∧
    ((∀ x ∈ h, x.id ≠ id) → moveItemToTop id h = h) ∧
    (∀ x rest, h = x :: rest → x.id = id → moveItemToTop id h = h) ∧
    (∀ y ∈ moveItemToTop id h, y ∈ h) := by
  have hguard : ¬ ((id == "") = true) := fun hq => hid (by simpa using hq)
  refine ⟨?_, ?_, ?_, ?_⟩
  · intro pre item post hdecomp hitem hpre hprene
    subst hdecomp
    unfold moveItemToTop
    rw [if_neg hguard]
    rw [findIdx?_append_first _ pre post item (by simp [hitem])
      (fun x hx => by simp [hpre x hx])]
    simp [List.length_pos.mpr hprene, getElem?_append_mid, eraseIdx_append_mid]
    rcases List.getElem?_eq_some_iff.mp (getElem?_append_mid pre post item) with
      ⟨hlt, hval⟩
    exact hval
  · intro hall
    unfold moveItemToTop
    rw [if_neg hguard]
    rw [List.findIdx?_eq_none_iff.mpr (fun x hx => by simp [hall x hx])]
  · intro x rest hdecomp hx
    subst hdecomp
    unfold moveItemToTop
    rw [if_neg hguard]
    rw [List.findIdx?_cons, if_pos (by simp [hx])]
    simp
  · intro y hy
    unfold moveItemToTop at hy
    by_cases hg : (id == "") = true
    · rw [if_pos hg] at hy; exact hy
    · rw [if_neg hg] at hy
      rcases hfind : h.findIdx? (fun item => item.id == id) with _ | index
      · rw [hfind] at hy; exact hy
      · rw [hfind] at hy
        by_cases hpos : 0 < index
        · simp only [hpos, if_true] at hy
          rcases hget : h[index]? with _ | item
          · simp only [hget] at hy; exact hy
          · simp only [hget] at hy
            rcases List.mem_cons.mp hy with hyi | hyer
            · subst hyi; exact List.getElem?_mem hget
            · exact List.eraseIdx_subset _ _ hyer
        · simp only [hpos, if_false] at hy; exact hy

/-- Witness for C7's amended theorem at the spec's promotion scenario. -/
theorem moveItemToTop_spec_witness :
    moveItemToTop "1" [entryNew, entryOld] = entryOld :: ([entryNew] ++ []) :=
  (moveItemToTop_spec "1" [entryNew, entryOld] (by decide)).1
    [entryNew] entryOld [] (by decide) (by decide) (by decide) (by decide)

/-- C9 (corrected, counterexample): rebinding from the registered
`"Ctrl+Alt+v"` to `"Ctrl+Alt+c"` with a failing OS registration surfaces no
failure value to the caller, and the state records the NEW key as current
(slot persisted to it, nothing registered with the OS) rather than reverting. -/
theorem rebind_failure_swallowed :
    (saveShortcutKey "Ctrl+Alt+c" false boundState).2 = none ∧
    (saveShortcutKey "Ctrl+Alt+c" false boundState).1 =
      { shortcutKey := "Ctrl+Alt+c", osRegistered := []
        storedSlot := some "Ctrl+Alt+c" } := by
  decide

/-- C9 (amended): when registration of the new key fails, the failure is
swallowed (no exception crosses the boundary, but no failure value is reported
either); the current-key field and the persisted slot are still set to the new
(Meta-fixed) key; the new key is not registered with the OS afterwards; and a
different old key, once unregistered, is not re-registered. -/
theorem rebind_failure_spec (key : String) (st : ShortcutState) :
    (saveShortcutKey key false st).2 = none ∧
    (saveShortcutKey key false st).1.shortcutKey =
      replaceFirst key "Meta" "Cmd" ∧
    (saveShortcutKey key false st).1.storedSlot =
      some (replaceFirst key "Meta" "Cmd") ∧
    replaceFirst key "Meta" "Cmd" ∉
      (saveShortcutKey key false st).1.osRegistered ∧
    (st.shortcutKey ≠ "" → st.shortcutKey ≠ key →
      st.shortcutKey ∉ (saveShortcutKey key false st).1.osRegistered) := by
  refine ⟨rfl, rfl, rfl, ?_, ?_⟩
  · intro hmem
    simp only [saveShortcutKey, registerGlobalShortcut, osUnregister,
      Bool.false_eq_true, if_false] at hmem
    have h2 := (List.mem_filter.mp hmem).2
    simp at h2
  · intro hne hnekey hmem
    have hcond : (st.shortcutKey != "" && st.shortcutKey != key) = true := by
      simp [bne_iff_ne, hne, hnekey]
    simp only [saveShortcutKey, registerGlobalShortcut, osUnregister, hcond,
      if_true, Bool.false_eq_true, if_false] at hmem
    have h2 := (List.mem_filter.mp hmem).1
    have h3 := (List.mem_filter.mp h2).2
    simp at h3

/-- Witness for C9's amended theorem at the concrete bound state. -/
theorem rebind_failure_spec_witness :
    "Ctrl+Alt+v" ∉ (saveShortcutKey "Ctrl+Alt+c" false boundState).1.osRegistered :=
  (rebind_failure_spec "Ctrl+Alt+c" boundState).2.2.2.2 (by decide) (by decide)

end ClipBox
